import Mathlib

set_option autoImplicit false

/-!
Shallow embedding of `src/AorticStenosisDopple.py` (CW Doppler simulation of
customized aortic valve models) and verification of the specification's
claims about it.

Python floats are modelled as rationals.  The float value `np.nan`, which
the source uses as an out-of-domain sentinel, is modelled by `none` in
`Flt := Option ℚ`, with arithmetic combinators that propagate `none` the way
IEEE arithmetic propagates NaN.
-/

/-- A Python float that may be NaN: `none` stands for `np.nan`. -/
abbrev Flt := Option ℚ

/-- The NaN float (`np.nan`). -/
def Flt.nan : Flt := none

/-- Float multiplication; NaN propagates as in IEEE arithmetic. -/
def Flt.mul : Flt → Flt → Flt
  | some a, some b => some (a * b)
  | _, _ => Flt.nan

/-- Float division; NaN propagates as in IEEE arithmetic.  (Zero divisors do
not occur on the paths the claims exercise; `ℚ` evaluates `x / 0` to `0`
where Python would raise `ZeroDivisionError` on plain floats.) -/
def Flt.div : Flt → Flt → Flt
  | some a, some b => some (a / b)
  | _, _ => Flt.nan

/-- The source dispatches on the string tag `shape`, which the interactive
layer restricts to `'cusp'` or `'line'`; the embedding uses a closed tag
type for those two variants. -/
inductive Shape where
  | cusp
  | line
deriving DecidableEq

/-- The `Valve` object, with the attributes assigned by `Valve.__init__`.
The source stores the orifice radius `orif = Valve.ava_to_rad(ava)
= sqrt(ava/pi)*10`, an irrational number for general areas; the embedding
carries the converted radius `orif` itself as the field and constructor
parameter (the conversion is a strictly monotone bijection from areas
`ava ≥ 0` onto radii `orif ≥ 0`, so nothing else about the object depends
on `ava` directly). -/
structure Valve where
  l1 : ℚ
  l2 : ℚ
  length : ℚ
  rad : ℚ
  orif : ℚ
  thick : ℚ
  shape : Shape
  wall_thick : ℚ
  trim_factor : ℚ
  y_range : ℚ
  v_max : ℚ
  alfa : ℚ
deriving DecidableEq

/-- Source `Valve.__init__`: every parameter is stored unchecked; a non-positive
`l2` is silently replaced by `l1` (`if not self.l2 > 0: self.l2 = self.l1`);
`y_range = length + l1`; `v_max` and `alfa` start as `float()`, that is
`0.0`. -/
def Valve.init (l1 l2 length rad orif thick : ℚ) (shape : Shape)
    (wall_thick trim_factor : ℚ) : Valve :=
  { l1 := l1
    l2 := if 0 < l2 then l2 else l1
    length := length
    rad := rad
    orif := orif
    thick := thick
    shape := shape
    wall_thick := wall_thick
    trim_factor := trim_factor
    y_range := length + l1
    v_max := 0
    alfa := 0 }

/-- Source constant `puntos = 10`: the number of contour points sampled by `Valve.line`. -/
def Valve.puntos : ℕ := 10

/-- The x coordinates sampled by `Valve.line`:
`puntos_x[i] = rad - (rad - orif) * (i / (puntos - 1))`. -/
def Valve.puntos_x (v : Valve) : List ℚ :=
  (List.range Valve.puntos).map
    (fun (i : ℕ) => v.rad - (v.rad - v.orif) * ((i : ℚ) / ((Valve.puntos : ℚ) - 1)))

/-- The y coordinate of the inner contour at abscissa `x`, as computed by
`Valve.line` for each shape.  For `'cusp'`: `x_len = valv_xlen/(1-factor)`,
`x0 = rad - x_len`, `y_len = x_len^2 - (x_len - valv_xlen)^2`, and
`y = (x - x0)^2 * length / y_len - length`.  For `'line'`:
`y = -(rad - x) * (length / valv_xlen)`. -/
def Valve.contour_y (v : Valve) (x : ℚ) : ℚ :=
  let valv_xlen := v.rad - v.orif
  match v.shape with
  | Shape.cusp =>
      let x_len := valv_xlen / (1 - v.trim_factor)
      let x0 := v.rad - x_len
      let y_len := x_len ^ 2 - (x_len - valv_xlen) ^ 2
      (x - x0) ^ 2 * v.length / y_len - v.length
  | Shape.line => -(v.rad - x) * (v.length / valv_xlen)

/-- Source `Valve.line`: the sampled inner contour, as the list of `(x, y)` points
that `Valve.radio` obtains by transposing the two coordinate rows. -/
def Valve.line (v : Valve) : List (ℚ × ℚ) :=
  v.puntos_x.map (fun x => (x, v.contour_y x))

/-- The interpolation loop inside `Valve.radio`: scan consecutive contour
points `(x1,y1), (x2,y2)`; at the first segment with `y_ >= y2` return
`x1 + ((y_-y1)/(y2-y1))*(x2-x1)` (`break`); otherwise keep scanning
(`continue`).  When no segment matches, the loop falls through and the
initial value `radio = float()`, that is `0.0`, is kept. -/
def Valve.interp (y_ : ℚ) : List (ℚ × ℚ) → ℚ
  | p1 :: p2 :: rest =>
      if y_ < p2.2 then Valve.interp y_ (p2 :: rest)
      else p1.1 + ((y_ - p1.2) / (p2.2 - p1.2)) * (p2.1 - p1.1)
  | _ => 0

/-- Source `Valve.radio`: radius at height `y` (`Flt.nan` = out of domain).
The inner branch works with `y_ = y - (-l1)`, the height referred to the
valve base. -/
def Valve.radio (v : Valve) (y : ℚ) : Flt :=
  if 0 < y then Flt.nan
  else if -v.l1 ≤ y then some v.rad
  else if -(v.l1 + v.length) ≤ y then some (Valve.interp (y + v.l1) v.line)
  else if -(v.l1 + v.length + 2) ≤ y then some v.orif
  else Flt.nan

/-- Source `Wave.calc_t_acel`: `70 + 2*(peak/100)^2` for `peak <= 700`, else
`168`. -/
def Wave.calc_t_acel (peak : ℚ) : ℚ :=
  if peak ≤ 700 then 70 + 2 * (peak / 100) ^ 2 else 168

/-- Source `Wave.calc_t_eyec`: `240 + 0.143*peak` for `peak < 700`, else `340`. -/
def Wave.calc_t_eyec (peak : ℚ) : ℚ :=
  if peak < 700 then 240 + 143 / 1000 * peak else 340

/-- The `Wave` object, with the attributes assigned by `Wave.__init__`. -/
structure Wave where
  peak : ℚ
  t_acel : ℚ
  t_eyec : ℚ
  t_decel : ℚ
  time : ℚ
deriving DecidableEq

/-- Source `Wave.__init__` (defaults `peak=450`, `time=600`):
`t_decel = t_eyec - t_acel`. -/
def Wave.init (peak time : ℚ) : Wave :=
  { peak := peak
    t_acel := Wave.calc_t_acel peak
    t_eyec := Wave.calc_t_eyec peak
    t_decel := Wave.calc_t_eyec peak - Wave.calc_t_acel peak
    time := time }

/-- Source `Wave.wavepoint`: velocity at millisecond `ms` (`Flt.nan` outside the
wave's window).  `t = ms - (q_eyec + t_acel)` is zero at the curve peak;
`k_1 = peak/t_acel^2`, `k_2 = peak/t_decel^2`. -/
def Wave.wavepoint (w : Wave) (ms q_eyec : ℚ) : Flt :=
  let t := ms - (q_eyec + w.t_acel)
  let k_1 := w.peak / w.t_acel ^ 2
  let k_2 := w.peak / w.t_decel ^ 2
  if t < -w.t_acel then Flt.nan
  else if t ≤ 0 then some (k_1 * t ^ 2 - w.peak)
  else if t < w.t_decel then some (k_2 * t ^ 2 - w.peak)
  else Flt.nan

/-- Source `Wave.get_timeline`: `np.arange(0, time+1, sep_ms)`. -/
def Wave.get_timeline (w : Wave) (sep_ms : ℚ) : List ℚ :=
  (List.range (Int.toNat ⌈(w.time + 1) / sep_ms⌉)).map (fun i => (i : ℚ) * sep_ms)

/-- Source `Wave.get_outer_wave`: the outer (maximum velocity) trace sampled over
the timeline, with the source's default pre-roll `q_eyec = 80`;
out-of-window samples are NaN. -/
def Wave.get_outer_wave (w : Wave) (sep_ms : ℚ) : List Flt :=
  (w.get_timeline sep_ms).map (fun ms => w.wavepoint ms 80)

/-- Source `Wave.wave`: the outer trace scaled by `escala = veloc / peak`.  In the
source `veloc` is itself a float that may be NaN (an undefined band radius
makes the continuity-equation velocity NaN), in which case every sample
becomes NaN. -/
def Wave.wave (w : Wave) (veloc : Flt) (sep_ms : ℚ) : List Flt :=
  let escala := Flt.div veloc (some w.peak)
  (w.get_outer_wave sep_ms).map (fun p => Flt.mul p escala)

/-- The loop of `Simulation.band_grouping`: `g` iterations remain,
`n = bands // groups`, `resto` is the remainder still to distribute and
`limit` the running cumulative cutoff (`limit += n`, plus one extra while
`resto > 0`). -/
def Simulation.groupingLoop : ℕ → ℕ → ℕ → ℕ → List ℕ
  | 0, _, _, _ => []
  | g + 1, n, resto, limit =>
      if 0 < resto then
        (limit + n + 1) :: Simulation.groupingLoop g n (resto - 1) (limit + n + 1)
      else
        (limit + n) :: Simulation.groupingLoop g n resto (limit + n)

/-- Source `Simulation.band_grouping`: distributes `bands` between `band_groups`
groups, remainder to the first groups; returns the cumulative cutoff list
`group_limits`. -/
def Simulation.band_grouping (bands band_groups : ℕ) : List ℕ :=
  Simulation.groupingLoop band_groups (bands / band_groups) (bands % band_groups) 0

/-- Source `Simulation.v_conteq`: continuity-equation velocity
`(basal_v * rad_LVOT**2) / radio**2`.  The division is unguarded: the source
contains no zero-radius check (on a plain-float zero radius Python raises an
unhandled `ZeroDivisionError`; on a NumPy float it silently yields `inf`). -/
def Simulation.v_conteq (radio : ℚ) (valve : Valve) (basal_velocity : ℚ) : ℚ :=
  basal_velocity * valve.rad ^ 2 / radio ^ 2

/-- The per-valve assignment performed by `Simulation.__init__`:
`valve.v_max = Simulation.v_conteq(valve.orif, valve, basal_velocity)` and
`valve.alfa = 12 / bands` (or the forced `sim_alfa` when given). -/
def Simulation.initValve (basal_velocity : ℚ) (bands : ℕ) (sim_alfa : Option ℚ)
    (valve : Valve) : Valve :=
  { valve with
      v_max := Simulation.v_conteq valve.orif valve basal_velocity
      alfa := sim_alfa.getD (12 / (bands : ℚ)) }

/-- The `Simulation` object, with the attributes assigned by
`Simulation.__init__`. -/
structure Simulation where
  bands : ℕ
  band_groups : ℕ
  basal_velocity : ℚ
  group_limits : List ℕ
  method : String
  valves : List Valve
  dispersion : ℚ
  sep_ms : ℚ
  seed : ℤ
  v_max_scale : ℚ

/-- Source `Simulation.__init__` with an explicit `seed` (when `seed=None` the
source draws one from the process-wide generator; only seeded runs are
modelled, which is what the reproducibility claim quantifies over).
`v_max_scale = max([valve.v_max for valve in valves])`, modelled as a fold
(the source raises on an empty valve list). -/
def Simulation.init (bands : ℕ) (basal_velocity : ℚ) (band_groups : ℕ)
    (valves : List Valve) (seed : ℤ) (dispersion : ℚ) (sim_alfa : Option ℚ) :
    Simulation :=
  let processed := valves.map (Simulation.initValve basal_velocity bands sim_alfa)
  { bands := bands
    band_groups := band_groups
    basal_velocity := basal_velocity
    group_limits := Simulation.band_grouping bands band_groups
    method := "scatter"
    valves := processed
    dispersion := dispersion
    sep_ms := 1
    seed := seed
    v_max_scale := (processed.map Valve.v_max).foldr max 0 }

/-- The velocity `vel` computed inside `Simulation.calc_band`:
`interval = y_range/bands`, `y_2 = -(n+1)*interval`,
`radio2 = valve.radio(y_2)` and `vel = v_conteq(radio2, valve,
basal_velocity)`; a NaN radius propagates to a NaN velocity. -/
def Simulation.band_vel (s : Simulation) (n : ℕ) (valve : Valve) : Flt :=
  let interval := valve.y_range / (s.bands : ℚ)
  (valve.radio (-((n : ℚ) + 1) * interval)).map
    (fun radio => Simulation.v_conteq radio valve s.basal_velocity)

/-- The dispersion noise drawn inside `Simulation.calc_band`:
`np.random.RandomState(seed=self.seed + n).normal(1, self.dispersion,
len(y_points))`.  `normal` stands for NumPy's seeded normal sampler, as a
function of `(seed, mean, sd, count)`; the embedding is parametric in it. -/
def Simulation.band_noise (normal : ℤ → ℚ → ℚ → ℕ → List ℚ)
    (s : Simulation) (n : ℕ) (valve : Valve) : List ℚ :=
  let wave := Wave.init valve.v_max 600
  normal (s.seed + (n : ℤ)) 1 s.dispersion
    (wave.wave (Simulation.band_vel s n valve) s.sep_ms).length

/-- Source `Simulation.calc_band`: returns the band's two-point ROI contour (as
`(radio, y)` columns) and its scatter points `(times, velocities)`.  Notes
kept from the source: the local `y_mid` is computed but never used and is
omitted; the line `x_points = x_points[~np.isnan(x_points)]` filters the
*time* axis, whose `arange` entries are never NaN, so it keeps every entry
(the velocity axis is not filtered and may hold NaN). -/
def Simulation.calc_band (normal : ℤ → ℚ → ℚ → ℕ → List ℚ) (s : Simulation)
    (n : ℕ) (valve : Valve) : (List (Flt × ℚ)) × (List ℚ × List Flt) :=
  let interval := valve.y_range / (s.bands : ℚ)
  let wave := Wave.init valve.v_max 600
  let y_1 := -(n : ℚ) * interval
  let y_2 := -((n : ℚ) + 1) * interval
  let radio1 := valve.radio y_1
  let radio2 := valve.radio y_2
  let x_points := wave.get_timeline s.sep_ms
  let y_points := wave.wave (Simulation.band_vel s n valve) s.sep_ms
  let noise := Simulation.band_noise normal s n valve
  ([(radio1, y_1), (radio2, y_2)],
   (x_points, List.zipWith Flt.mul y_points (noise.map some)))

/-- Source `Simulation.calc_group`: concatenates the bands of one group, dropping
the duplicated first ROI column of every band after the first, then mirrors
the ROI x coordinates (`left_cont[0,:] * (-1)` on the reversed columns) to
close the polygon; returns `(polig, points)`.  The source also computes a
local `v_max` that it never uses; it is omitted. -/
def Simulation.calc_group (normal : ℤ → ℚ → ℚ → ℕ → List ℚ) (s : Simulation)
    (group : ℕ) (valve : Valve) : (List (Flt × ℚ)) × (List ℚ × List Flt) :=
  let limits := s.group_limits
  let band_0 := if s.band_groups ≤ group then 0
    else if group = 0 then 0 else limits.getD (group - 1) 0
  let band_n := if s.band_groups ≤ group then s.bands else limits.getD group 0
  let step := fun (acc : (List (Flt × ℚ)) × (List ℚ × List Flt)) (n : ℕ) =>
    let res := Simulation.calc_band normal s n valve
    let new_cont := if band_0 < n then res.1.drop 1 else res.1
    (acc.1 ++ new_cont, (acc.2.1 ++ res.2.1, acc.2.2 ++ res.2.2))
  let folded := (List.range' band_0 (band_n - band_0)).foldl step ([], ([], []))
  let cont := folded.1
  let left_cont := cont.reverse.map (fun p => (Flt.mul p.1 (some (-1)), p.2))
  (cont ++ left_cont, folded.2)

/-!
Concrete fixtures used by witnesses and counterexamples.  `valveA` is the
source's default valve geometry with the default clinical area replaced by
`ava = pi/4` so that the orifice radius is the rational `5`; `valveA'` is
the same valve after `Simulation.__init__` has assigned `v_max`/`alfa`.
`normal0` is one admissible seeded normal sampler (the embedding is
parametric in the sampler).
-/

/-- A trivial admissible stand-in for NumPy's seeded normal sampler. -/
def normal0 : ℤ → ℚ → ℚ → ℕ → List ℚ := fun _ _ _ k => List.replicate k 1

/-- Default-like valve: `l1=10, l2=10, length=5, rad=10, orif=5`, cusp,
`trim_factor=0`. -/
def valveA : Valve := Valve.init 10 10 5 10 5 1 Shape.cusp 2 0

/-- The valve `valveA` after the per-valve assignment of
`Simulation.__init__` with `basal_velocity=110`, `bands=100`
(`v_max = 110*(10/5)^2 = 440`). -/
def valveA' : Valve := Simulation.initValve 110 100 none valveA

/-- A simulation over `valveA`: `bands=100, basal=110, groups=10, seed=42,
dispersion=5%`. -/
def simA : Simulation := Simulation.init 100 110 10 [valveA] 42 (1/20) none

/-- A second simulation agreeing with `simA` on `seed`, `dispersion`,
`bands`, `basal_velocity` and `sep_ms` but differing in `band_groups`
(hence `group_limits`) and in the forced `sim_alfa`. -/
def simB : Simulation := Simulation.init 100 110 5 [valveA] 42 (1/20) (some 1)

/-- Positivity of the acceleration time for every peak. -/
theorem calc_t_acel_pos (peak : ℚ) : 0 < Wave.calc_t_acel peak := by
  unfold Wave.calc_t_acel
  split_ifs with h
  · nlinarith [sq_nonneg (peak / 100)]
  · norm_num

/-- Positivity of the deceleration time `t_eyec - t_acel` for every
positive peak (the key arithmetic fact behind C9 and C10). -/
theorem t_decel_pos (peak : ℚ) (hp : 0 < peak) :
    0 < Wave.calc_t_eyec peak - Wave.calc_t_acel peak := by
  unfold Wave.calc_t_eyec Wave.calc_t_acel
  by_cases h1 : peak < 700
  · rw [if_pos h1, if_pos h1.le]
    nlinarith [mul_nonneg hp.le (by linarith : (0:ℚ) ≤ 700 - peak)]
  · rw [if_neg h1]
    by_cases h2 : peak ≤ 700
    · have hpeak : peak = 700 := le_antisymm h2 (not_lt.mp h1)
      subst hpeak
      norm_num
    · rw [if_neg h2]
      norm_num

/-- C9: for every valid peak (`peak > 0`) the constructed `Wave` satisfies
`t_decel = t_eyec - t_acel > 0`, so the deceleration-phase coefficient
`k_2 = peak / t_decel^2` is well defined (multiplying it back by
`t_decel^2` recovers `peak`). -/
theorem C9_t_decel_positive (peak time : ℚ) (hp : 0 < peak) :
    0 < (Wave.init peak time).t_decel ∧
    (Wave.init peak time).peak / (Wave.init peak time).t_decel ^ 2 *
      (Wave.init peak time).t_decel ^ 2 = (Wave.init peak time).peak := by
  have h := t_decel_pos peak hp
  have hne : (Wave.init peak time).t_decel ≠ 0 := by
    simpa [Wave.init] using h.ne'
  exact ⟨by simpa [Wave.init] using h,
    div_mul_cancel₀ _ (pow_ne_zero 2 hne)⟩

/-- Witness for C9 at the source's default `peak = 450`. -/
theorem C9_t_decel_positive_witness : 0 < (Wave.init 450 600).t_decel :=
  (C9_t_decel_positive 450 600 (by norm_num)).1

/-- C10: for every `peak > 0` and pre-roll `q_eyec`, `wavepoint(ms, q_eyec)`
is a numeric value exactly for `ms` in the half-open window
`[q_eyec, q_eyec + t_acel + t_decel)`; it is `0` at the onset instant
`ms = q_eyec` and `-peak` at `ms = q_eyec + t_acel`, while at exactly
`ms = q_eyec + t_acel + t_decel` (and everywhere outside the window) it is
the undefined marker. -/
theorem C10_wavepoint_window (peak time q_eyec : ℚ) (hp : 0 < peak) :
    (∀ ms : ℚ, ((Wave.init peak time).wavepoint ms q_eyec).isSome = true ↔
        q_eyec ≤ ms ∧
          ms < q_eyec + (Wave.init peak time).t_acel + (Wave.init peak time).t_decel) ∧
    (Wave.init peak time).wavepoint q_eyec q_eyec = some 0 ∧
    (Wave.init peak time).wavepoint (q_eyec + (Wave.init peak time).t_acel) q_eyec
      = some (-peak) ∧
    (Wave.init peak time).wavepoint
        (q_eyec + (Wave.init peak time).t_acel + (Wave.init peak time).t_decel) q_eyec
      = Flt.nan := by
  have ha : 0 < Wave.calc_t_acel peak := calc_t_acel_pos peak
  have hd : 0 < Wave.calc_t_eyec peak - Wave.calc_t_acel peak := t_decel_pos peak hp
  refine ⟨?_, ?_, ?_, ?_⟩
  · intro ms
    simp only [Wave.wavepoint, Wave.init]
    split_ifs with h1 h2 h3
    · simp only [Flt.nan, Option.isSome_none, Bool.false_eq_true, false_iff]
      intro hcon
      linarith [hcon.1]
    · simp only [Option.isSome_some, true_iff]
      constructor <;> linarith
    · simp only [Option.isSome_some, true_iff]
      constructor <;> linarith
    · simp only [Flt.nan, Option.isSome_none, Bool.false_eq_true, false_iff]
      intro hcon
      linarith [hcon.2]
  · simp only [Wave.wavepoint, Wave.init]
    rw [if_neg (by linarith), if_pos (by linarith)]
    have hsq : (q_eyec - (q_eyec + Wave.calc_t_acel peak)) ^ 2
        = Wave.calc_t_acel peak ^ 2 := by ring
    rw [hsq, div_mul_cancel₀ peak (pow_ne_zero 2 ha.ne')]
    simp
  · simp only [Wave.wavepoint, Wave.init]
    rw [if_neg (by linarith), if_pos (by linarith)]
    norm_num
  · simp only [Wave.wavepoint, Wave.init]
    rw [if_neg (by linarith), if_neg (by linarith), if_neg (by linarith)]

/-- Witness for C10 at the defaults `peak = 450`, `q_eyec = 80`: the onset
sample is exactly zero. -/
theorem C10_wavepoint_window_witness : (Wave.init 450 600).wavepoint 80 80 = some 0 :=
  (C10_wavepoint_window 450 600 80 (by norm_num)).2.1

/-- C8 counterexample: the two branches of the acceleration-time formula do
NOT differ at the `peak = 700` boundary — the `peak <= 700` branch evaluates
to `70 + 2*(700/100)^2 = 168` there, exactly the constant of the
`peak > 700` branch (computed here at `peak = 800`), so `t_acel` is
continuous at the boundary. -/
theorem C8_counterexample :
    Wave.calc_t_acel 700 = 168 ∧ Wave.calc_t_acel 800 = 168 := by
  constructor <;> norm_num [Wave.calc_t_acel]

/-- C8 amended: only the ejection-time formula is discontinuous at the
`peak = 700` boundary (its below-700 branch stays above `340 + 2/25` for
peaks within `1/10` of the boundary while the at/above branch is the
constant `340`); the acceleration-time branches agree at the boundary — the
below branch tends to the constant `168` (within `1/20` of it on the same
neighbourhood, never exceeding it) and equals `168` at `peak = 700`
exactly. -/
theorem C8_amended (p : ℚ) (h1 : 6999/10 ≤ p) (h2 : p < 700) :
    (340 + 2/25 < Wave.calc_t_eyec p ∧ Wave.calc_t_eyec 700 = 340) ∧
    (Wave.calc_t_acel p = 70 + 2 * (p / 100) ^ 2 ∧
     168 - 1/20 < Wave.calc_t_acel p ∧ Wave.calc_t_acel p ≤ 168 ∧
     Wave.calc_t_acel 700 = 168) := by
  have heq : Wave.calc_t_acel p = 70 + 2 * (p / 100) ^ 2 := by
    unfold Wave.calc_t_acel
    rw [if_pos h2.le]
  refine ⟨⟨?_, ?_⟩, heq, ?_, ?_, ?_⟩
  · unfold Wave.calc_t_eyec
    rw [if_pos h2]
    linarith
  · norm_num [Wave.calc_t_eyec]
  · rw [heq]
    nlinarith [mul_le_mul h1 h1 (by norm_num : (0:ℚ) ≤ 6999/10) (by linarith : (0:ℚ) ≤ p)]
  · rw [heq]
    nlinarith [mul_le_mul h2.le h2.le (by linarith : (0:ℚ) ≤ p) (by norm_num : (0:ℚ) ≤ 700)]
  · norm_num [Wave.calc_t_acel]

/-- Witness for C8's amended statement just below the boundary. -/
theorem C8_amended_witness : 340 + 2/25 < Wave.calc_t_eyec (69995/100) :=
  (C8_amended (69995/100) (by norm_num) (by norm_num)).1.1

/-- C7 counterexample: with non-physical parameters — orifice radius
`orif = 12 ≥ rad = 10` (an area of `1.44*pi` cm²) and non-positive distal
length `l2 = -1` — `Valve.__init__` does not fail: it produces a valve
object, silently replacing `l2` by `l1 = 10`. -/
theorem C7_counterexample :
    (Valve.init 10 (-1) 5 10 12 1 Shape.cusp 2 0).l2 = 10 ∧
    (Valve.init 10 (-1) 5 10 12 1 Shape.cusp 2 0).orif = 12 ∧
    (Valve.init 10 (-1) 5 10 12 1 Shape.cusp 2 0).rad = 10 := by
  refine ⟨?_, rfl, rfl⟩
  norm_num [Valve.init]

/-- C7 amended: `Valve.__init__` performs no validation at all — for every
parameter tuple (physical or not) it returns a valve object whose fields
are the parameters stored unchecked, except that a non-positive `l2` is
silently replaced by `l1`; `v_max` starts at `0.0` and is only assigned at
`Simulation` construction. -/
theorem C7_amended (l1 l2 length rad orif thick : ℚ) (shape : Shape)
    (wall_thick trim_factor : ℚ) :
    (Valve.init l1 l2 length rad orif thick shape wall_thick trim_factor).l1 = l1 ∧
    (Valve.init l1 l2 length rad orif thick shape wall_thick trim_factor).l2
      = (if 0 < l2 then l2 else l1) ∧
    (Valve.init l1 l2 length rad orif thick shape wall_thick trim_factor).length = length ∧
    (Valve.init l1 l2 length rad orif thick shape wall_thick trim_factor).rad = rad ∧
    (Valve.init l1 l2 length rad orif thick shape wall_thick trim_factor).orif = orif ∧
    (Valve.init l1 l2 length rad orif thick shape wall_thick trim_factor).shape = shape ∧
    (Valve.init l1 l2 length rad orif thick shape wall_thick trim_factor).trim_factor
      = trim_factor ∧
    (Valve.init l1 l2 length rad orif thick shape wall_thick trim_factor).y_range
      = length + l1 ∧
    (Valve.init l1 l2 length rad orif thick shape wall_thick trim_factor).v_max = 0 :=
  ⟨rfl, rfl, rfl, rfl, rfl, rfl, rfl, rfl, rfl⟩

/-- C1: the per-band jet velocity computed by the simulator equals
`basal_velocity * (rad / radio2)^2` (continuity equation at the deeper
slice radius `radio2`), and a band whose `radio2` equals the valve's `orif`
yields exactly the `v_max` that `Simulation.__init__` assigns to that
valve. -/
theorem C1_continuity_velocity (s : Simulation) (valve : Valve) (n : ℕ) (r : ℚ)
    (hr : valve.radio (-((n : ℚ) + 1) * (valve.y_range / (s.bands : ℚ))) = some r) :
    Simulation.band_vel s n valve
      = some (s.basal_velocity * (valve.rad / r) ^ 2) ∧
    (r = valve.orif → ∀ (bands : ℕ) (sim_alfa : Option ℚ),
      Simulation.band_vel s n valve
        = some ((Simulation.initValve s.basal_velocity bands sim_alfa valve).v_max)) := by
  have hmain : Simulation.band_vel s n valve
      = some (Simulation.v_conteq r valve s.basal_velocity) := by
    simp only [Simulation.band_vel, hr, Option.map_some']
  constructor
  · rw [hmain]
    simp only [Simulation.v_conteq, div_pow, mul_div_assoc]
  · intro hor bands sim_alfa
    rw [hmain, hor]
    simp only [Simulation.initValve]

/-- Witness for C1: band 0 of the fixture simulation lies in the LVOT, so
`radio2 = rad = 10` and the band velocity is the basal velocity `110`. -/
theorem C1_continuity_velocity_witness :
    Simulation.band_vel simA 0 valveA'
      = some (simA.basal_velocity * (valveA'.rad / 10) ^ 2) :=
  (C1_continuity_velocity simA valveA' 0 10 (by with_unfolding_all decide)).1

/-- Closed form of the grouping loop: the `i`-th cumulative cutoff is
`limit + (i+1)*n + min (i+1) resto`. -/
theorem Simulation.groupingLoop_eq (g n resto limit : ℕ) :
    Simulation.groupingLoop g n resto limit =
      (List.range g).map (fun i => limit + (i + 1) * n + min (i + 1) resto) := by
  induction g generalizing resto limit with
  | zero => simp [Simulation.groupingLoop]
  | succ g ih =>
      rw [List.range_succ_eq_map, List.map_cons, List.map_map]
      unfold Simulation.groupingLoop
      split_ifs with h
      · rw [ih]
        refine congrArg₂ List.cons (by omega) ?_
        refine congrArg (fun f => List.map f (List.range g)) (funext fun i => ?_)
        simp only [Function.comp_apply, Nat.succ_eq_add_one]
        have hmul : (i + 1 + 1) * n = (i + 1) * n + n := by ring
        omega
      · rw [ih]
        refine congrArg₂ List.cons (by omega) ?_
        refine congrArg (fun f => List.map f (List.range g)) (funext fun i => ?_)
        simp only [Function.comp_apply, Nat.succ_eq_add_one]
        have hmul : (i + 1 + 1) * n = (i + 1) * n + n := by ring
        omega

/-- Per-group band counts derived from the cumulative cutoffs returned by
`Simulation.band_grouping` (the count of group `i` is its cutoff minus the
previous group's cutoff). -/
def Simulation.group_counts (bands band_groups : ℕ) : List ℕ :=
  (List.range band_groups).map
    (fun i => (Simulation.band_grouping bands band_groups).getD i 0
      - (if i = 0 then 0 else (Simulation.band_grouping bands band_groups).getD (i - 1) 0))

/-- Sum of the fair-share counts. -/
theorem sum_fair_counts (g q r : ℕ) :
    ((List.range g).map (fun i => q + if i < r then 1 else 0)).sum = g * q + min g r := by
  induction g with
  | zero => simp
  | succ g ih =>
      rw [List.range_succ, List.map_append, List.sum_append, ih]
      simp only [List.map_cons, List.map_nil, List.sum_cons, List.sum_nil]
      have hmul : (g + 1) * q = g * q + q := by ring
      by_cases h : g < r
      · rw [if_pos h]
        omega
      · rw [if_neg h]
        omega

/-- The `i`-th cutoff of `band_grouping b g`, for `i < g`. -/
theorem band_grouping_getD (b g i : ℕ) (hi : i < g) :
    (Simulation.band_grouping b g).getD i 0 = (i + 1) * (b / g) + min (i + 1) (b % g) := by
  rw [Simulation.band_grouping, Simulation.groupingLoop_eq, List.getD_eq_getElem?_getD,
    List.getElem?_map, List.getElem?_range hi]
  simp

/-- The count of group `i` (`i < g`) is the fair share
`b / g` plus one exactly when `i < b % g`. -/
theorem group_counts_getD (b g i : ℕ) (hg : 1 ≤ g) (hi : i < g) :
    (Simulation.group_counts b g).getD i 0 = b / g + if i < b % g then 1 else 0 := by
  rw [Simulation.group_counts, List.getD_eq_getElem?_getD, List.getElem?_map,
    List.getElem?_range hi]
  simp only [Option.map_some', Option.getD_some]
  by_cases h0 : i = 0
  · subst h0
    rw [if_pos rfl, band_grouping_getD b g 0 hi]
    rw [show (0 + 1) * (b / g) = b / g from by ring]
    by_cases hr0 : 0 < b % g
    · rw [if_pos hr0, Nat.min_eq_left (by omega : 0 + 1 ≤ b % g)]
      simp
    · rw [if_neg hr0, Nat.min_eq_right (by omega : b % g ≤ 0 + 1),
        Nat.eq_zero_of_not_pos hr0]
      simp
  · rw [if_neg h0, band_grouping_getD b g i hi, band_grouping_getD b g (i - 1) (by omega)]
    have hii : i - 1 + 1 = i := by omega
    rw [hii]
    rw [show (i + 1) * (b / g) = i * (b / g) + b / g from by ring]
    by_cases hir : i < b % g
    · rw [if_pos hir, Nat.min_eq_left (by omega : i + 1 ≤ b % g),
        Nat.min_eq_left (by omega : i ≤ b % g)]
      clear hir
      generalize b / g = q
      omega
    · rw [if_neg hir, Nat.min_eq_right (by omega : b % g ≤ i + 1),
        Nat.min_eq_right (by omega : b % g ≤ i)]
      clear hir
      generalize b / g = q
      generalize b % g = r
      omega

/-- C2 counterexample: the claim quantifies over every
`band_groups ≤ bands`, which includes zero groups.  At `bands = 1`,
`band_groups = 0` the source raises `ZeroDivisionError` at
`bands // band_groups` and returns nothing; in the embedding, where `ℕ`
division by zero yields `0`, the loop body never runs and the cutoff list
is empty, so the per-group counts sum to `0 ≠ 1 = bands`.  Under either
semantics no cutoff list whose per-group counts sum to `bands` is
returned. -/
theorem C2_counterexample :
    Simulation.band_grouping 1 0 = [] ∧
    (Simulation.group_counts 1 0).sum = 0 ∧
    (0 : ℕ) ≠ 1 :=
  ⟨rfl, rfl, by decide⟩

/-- C2 amended: for `bands >= 1` and `1 <= band_groups <= bands`,
`band_grouping` returns one cumulative cutoff per group; the derived
per-group counts sum to `bands`, every count is the integer-division share
`bands // groups` plus one exactly for the first `bands % groups` groups
(so counts differ by at most 1), and the last cutoff equals `bands`.  (The
restriction to `1 ≤ band_groups` is forced by the counterexample: at zero
groups the source raises `ZeroDivisionError` rather than returning
cutoffs.) -/
theorem C2_band_grouping_fair (b g : ℕ) (hb : 1 ≤ b) (hg : 1 ≤ g) (hgb : g ≤ b) :
    (Simulation.band_grouping b g).length = g ∧
    (Simulation.band_grouping b g).getLast? = some b ∧
    (Simulation.group_counts b g).sum = b ∧
    (∀ i, i < g →
      (Simulation.group_counts b g).getD i 0 = b / g + if i < b % g then 1 else 0) ∧
    (∀ c ∈ Simulation.group_counts b g, ∀ d ∈ Simulation.group_counts b g, c ≤ d + 1) := by
  have hdm := Nat.div_add_mod b g
  have hr : b % g < g := Nat.mod_lt _ hg
  have hcong : Simulation.group_counts b g
      = (List.range g).map (fun i => b / g + if i < b % g then 1 else 0) := by
    rw [Simulation.group_counts]
    refine List.map_congr_left fun i hi => ?_
    have hi' : i < g := List.mem_range.mp hi
    have h := group_counts_getD b g i hg hi'
    rw [Simulation.group_counts, List.getD_eq_getElem?_getD, List.getElem?_map,
      List.getElem?_range hi'] at h
    simpa using h
  refine ⟨?_, ?_, ?_, fun i hi => group_counts_getD b g i hg hi, ?_⟩
  · rw [Simulation.band_grouping, Simulation.groupingLoop_eq]
    simp
  · have hlen : (Simulation.band_grouping b g).length = g := by
      rw [Simulation.band_grouping, Simulation.groupingLoop_eq]
      simp
    rw [List.getLast?_eq_getElem?, hlen, Simulation.band_grouping,
      Simulation.groupingLoop_eq, List.getElem?_map,
      List.getElem?_range (by omega : g - 1 < g)]
    simp only [Option.map_some']
    have hgg : g - 1 + 1 = g := by omega
    rw [hgg, Nat.min_eq_right (le_of_lt hr), Nat.zero_add, hdm]
  · rw [hcong, sum_fair_counts, Nat.min_eq_right (le_of_lt hr)]
    exact hdm
  · intro c hc d hd
    rw [hcong] at hc hd
    obtain ⟨i, hi, hci⟩ := List.mem_map.mp hc
    obtain ⟨j, hj, hdj⟩ := List.mem_map.mp hd
    subst hci
    subst hdj
    split_ifs <;> omega

/-- Witness for C2 at `bands = 10`, `band_groups = 3`
(cutoffs `[4, 7, 10]`). -/
theorem C2_band_grouping_fair_witness : (Simulation.band_grouping 10 3).getLast? = some 10 :=
  (C2_band_grouping_fair 10 3 (by norm_num) (by norm_num) (by norm_num)).2.1

/-- C3: for any admissible seeded sampler, two simulations agreeing on
`seed`, `dispersion`, `bands`, `basal_velocity` and `sep_ms` produce
identical per-band scatter data (they may differ in grouping, forced alfa,
valve list or any other attribute), and the band's noise is drawn from the
generator seeded by `seed + n` as a function of `(seed, n, dispersion,
trace length)` only — so each band's noise is independent of the order in
which bands are computed. -/
theorem C3_reproducibility (normal : ℤ → ℚ → ℚ → ℕ → List ℚ)
    (s1 s2 : Simulation) (valve : Valve) (n : ℕ)
    (hseed : s1.seed = s2.seed) (hdisp : s1.dispersion = s2.dispersion)
    (hbands : s1.bands = s2.bands) (hbasal : s1.basal_velocity = s2.basal_velocity)
    (hsep : s1.sep_ms = s2.sep_ms) :
    Simulation.calc_band normal s1 n valve = Simulation.calc_band normal s2 n valve ∧
    Simulation.band_noise normal s1 n valve
      = normal (s1.seed + (n : ℤ)) 1 s1.dispersion
          ((Wave.init valve.v_max 600).wave (Simulation.band_vel s1 n valve) s1.sep_ms).length := by
  constructor
  · simp only [Simulation.calc_band, Simulation.band_vel, Simulation.band_noise,
      hseed, hdisp, hbands, hbasal, hsep]
  · rfl

/-- Witness for C3: `simA` and `simB` differ in `band_groups`,
`group_limits` and the forced `sim_alfa`, yet band 0's data coincides. -/
theorem C3_reproducibility_witness :
    Simulation.calc_band normal0 simA 0 valveA' = Simulation.calc_band normal0 simB 0 valveA' :=
  (C3_reproducibility normal0 simA simB valveA' 0 rfl rfl rfl rfl rfl).1

set_option maxRecDepth 20000 in
/-- C5: the point cloud returned by `calc_band` does contain undefined
velocity samples.  At band 0 of the fixture simulation the first scatter
column is the pair `(0, NaN)`: time `0` (well before the wave onset at
`q_eyec = 80`) stays in the time axis — the source's NaN filter is applied
to the `arange` time axis, which never holds NaN — while the velocity
sample at that time is NaN and is emitted into the cloud. -/
theorem C5_nan_sample_emitted :
    (Simulation.calc_band normal0 simA 0 valveA').2.1.head? = some 0 ∧
    (Simulation.calc_band normal0 simA 0 valveA').2.2.head? = some Flt.nan := by
  constructor
  · with_unfolding_all decide
  · with_unfolding_all decide

/-- A cusp valve with `trim_factor = 1/2`: for such trims the sampled inner
contour spans only y heights down to `-10/3` while the valve body extends
to `-length = -5`, so deep slices make the interpolation loop of
`Valve.radio` fall through to its initial value `0.0`. -/
def valveDeg : Valve := Valve.init 10 10 5 10 5 1 Shape.cusp 2 (1/2)

/-- The valve `valveDeg` processed by `Simulation.__init__`
(`basal_velocity=110`, `bands=100`). -/
def valveDeg' : Valve := Simulation.initValve 110 100 none valveDeg

/-- A simulation over `valveDeg`. -/
def simDeg : Simulation := Simulation.init 100 110 10 [valveDeg] 42 (1/20) none

/-- C6: no degenerate-geometry detection exists.  At band `n = 89` of the
`valveDeg` fixture, the slice height is `y_2 = -13.5`, the computed radius
is exactly `0` (the interpolation loop falls through), and that zero flows
straight into the unguarded division of `Simulation.v_conteq` — the band
velocity is still produced (in `ℚ` the division by zero evaluates to `0`;
on Python plain floats the same expression raises an unhandled
`ZeroDivisionError`, and on NumPy floats it silently yields `inf`). -/
theorem C6_zero_radius_reaches_division :
    valveDeg'.radio (-27/2) = some 0 ∧
    Simulation.band_vel simDeg 89 valveDeg'
      = some (Simulation.v_conteq 0 valveDeg' 110) := by
  constructor
  · with_unfolding_all decide
  · with_unfolding_all decide

/-- On a segment with `y2 < y1` and `x2 <= x1`, the interpolated abscissa at
any query below `y1` stays at or below `x1`. -/
theorem seg_le_left (x1 y1 x2 y2 y_ : ℚ) (hy : y2 < y1) (hx : x2 ≤ x1) (h : y_ < y1) :
    x1 + (y_ - y1) / (y2 - y1) * (x2 - x1) ≤ x1 := by
  have hrw : (y_ - y1) / (y2 - y1) = (y1 - y_) / (y1 - y2) := by
    rw [← neg_sub y1 y_, ← neg_sub y1 y2, neg_div_neg_eq]
  have hfrac : 0 ≤ (y_ - y1) / (y2 - y1) := by
    rw [hrw]
    exact div_nonneg (by linarith) (by linarith)
  nlinarith [mul_nonneg hfrac (by linarith : (0:ℚ) ≤ x1 - x2)]

/-- On a segment with `y2 < y1` and `x2 <= x1`, the interpolated abscissa at
any query at or above `y2` stays at or above `x2`. -/
theorem seg_ge_right (x1 y1 x2 y2 y_ : ℚ) (hy : y2 < y1) (hx : x2 ≤ x1) (h : y2 ≤ y_) :
    x2 ≤ x1 + (y_ - y1) / (y2 - y1) * (x2 - x1) := by
  have hne : y2 - y1 ≠ 0 := by linarith
  have hne' : y1 - y2 ≠ 0 := by linarith
  have key : x1 + (y_ - y1) / (y2 - y1) * (x2 - x1) - x2
      = (x1 - x2) * (y_ - y2) / (y1 - y2) := by
    field_simp
    ring
  nlinarith [key, div_nonneg (mul_nonneg (by linarith : (0:ℚ) ≤ x1 - x2)
    (by linarith : (0:ℚ) ≤ y_ - y2)) (by linarith : (0:ℚ) ≤ y1 - y2)]

/-- On a segment with `y2 < y1` and `x2 <= x1`, the interpolated abscissa is
monotone in the query height. -/
theorem seg_mono (x1 y1 x2 y2 ya yb : ℚ) (hy : y2 < y1) (hx : x2 ≤ x1) (h : yb ≤ ya) :
    x1 + (yb - y1) / (y2 - y1) * (x2 - x1) ≤ x1 + (ya - y1) / (y2 - y1) * (x2 - x1) := by
  have hne : y2 - y1 ≠ 0 := by linarith
  have hne' : y1 - y2 ≠ 0 := by linarith
  have key : (x1 + (ya - y1) / (y2 - y1) * (x2 - x1))
        - (x1 + (yb - y1) / (y2 - y1) * (x2 - x1))
      = (ya - yb) * (x1 - x2) / (y1 - y2) := by
    field_simp
    ring
  nlinarith [key, div_nonneg (mul_nonneg (by linarith : (0:ℚ) ≤ ya - yb)
    (by linarith : (0:ℚ) ≤ x1 - x2)) (by linarith : (0:ℚ) ≤ y1 - y2)]

/-- If the query height lies strictly below the head's height, the scan
never returns more than the head's abscissa (fall-through gives `0`, which
the nonnegativity hypothesis keeps below the head). -/
theorem interp_le_head (y_ : ℚ) (p : ℚ × ℚ) (rest : List (ℚ × ℚ))
    (hx0 : ∀ q ∈ p :: rest, 0 ≤ q.1)
    (hy : (p :: rest).Chain' (fun a b => b.2 < a.2))
    (hx : (p :: rest).Chain' (fun a b => b.1 ≤ a.1))
    (hlt : y_ < p.2) :
    Valve.interp y_ (p :: rest) ≤ p.1 := by
  induction rest generalizing p with
  | nil =>
      simpa [Valve.interp] using hx0 p (by simp)
  | cons q rest ih =>
      have hyq : q.2 < p.2 := (List.chain'_cons.mp hy).1
      have hxq : q.1 ≤ p.1 := (List.chain'_cons.mp hx).1
      simp only [Valve.interp]
      split_ifs with h
      · exact le_trans
          (ih q (fun r hr => hx0 r (List.mem_cons_of_mem p hr))
            (List.chain'_cons.mp hy).2 (List.chain'_cons.mp hx).2 h)
          hxq
      · exact seg_le_left p.1 p.2 q.1 q.2 y_ hyq hxq hlt

/-- Monotonicity of the interpolation scan: over a contour whose heights
strictly decrease and abscissas do not increase (all nonnegative), a lower
query never yields a larger radius. -/
theorem interp_mono_list (ya yb : ℚ) (pts : List (ℚ × ℚ))
    (hx0 : ∀ q ∈ pts, 0 ≤ q.1)
    (hy : pts.Chain' (fun a b => b.2 < a.2))
    (hx : pts.Chain' (fun a b => b.1 ≤ a.1))
    (h : yb ≤ ya) :
    Valve.interp yb pts ≤ Valve.interp ya pts := by
  induction pts with
  | nil => simp [Valve.interp]
  | cons p rest ih =>
      cases rest with
      | nil => simp [Valve.interp]
      | cons q rest' =>
          have hyq : q.2 < p.2 := (List.chain'_cons.mp hy).1
          have hxq : q.1 ≤ p.1 := (List.chain'_cons.mp hx).1
          have htl_x0 : ∀ r ∈ q :: rest', 0 ≤ r.1 :=
            fun r hr => hx0 r (List.mem_cons_of_mem p hr)
          have htl_y := (List.chain'_cons.mp hy).2
          have htl_x := (List.chain'_cons.mp hx).2
          simp only [Valve.interp]
          by_cases h1 : yb < q.2
          · rw [if_pos h1]
            by_cases h2 : ya < q.2
            · rw [if_pos h2]
              exact ih htl_x0 htl_y htl_x
            · rw [if_neg h2]
              calc Valve.interp yb (q :: rest')
                  ≤ q.1 := interp_le_head yb q rest' htl_x0 htl_y htl_x h1
                _ ≤ p.1 + (ya - p.2) / (q.2 - p.2) * (q.1 - p.1) :=
                  seg_ge_right p.1 p.2 q.1 q.2 ya hyq hxq (not_lt.mp h2)
          · have h2 : ¬ ya < q.2 := fun h2 => h1 (lt_of_le_of_lt h h2)
            rw [if_neg h1, if_neg h2]
            exact seg_mono p.1 p.2 q.1 q.2 ya yb hyq hxq h

/-- Strict monotonicity of the inner contour's height in its abscissa, for
`'line'` valves and for `'cusp'` valves with a trim factor in `[0, 1)`:
lower abscissas (toward the orifice) sit strictly lower. -/
theorem contour_y_lt (v : Valve)
    (hshape : v.shape = Shape.line ∨
      (v.shape = Shape.cusp ∧ 0 ≤ v.trim_factor ∧ v.trim_factor < 1))
    (hro : v.orif < v.rad) (hlen : 0 < v.length)
    (u w : ℚ) (hu : v.orif ≤ u) (huw : u < w) :
    v.contour_y u < v.contour_y w := by
  have hvxl : 0 < v.rad - v.orif := by linarith
  rcases hshape with hl | ⟨hc, hf0, hf1⟩
  · simp only [Valve.contour_y, hl]
    have hpos : 0 < v.length / (v.rad - v.orif) := div_pos hlen hvxl
    nlinarith [mul_pos hpos (by linarith : (0:ℚ) < w - u)]
  · simp only [Valve.contour_y, hc]
    have hF : 0 < 1 - v.trim_factor := by linarith
    set xl := (v.rad - v.orif) / (1 - v.trim_factor) with hxl_def
    have hxl_ge : v.rad - v.orif ≤ xl := by
      rw [hxl_def, le_div_iff hF]
      nlinarith
    have hyl : 0 < xl ^ 2 - (xl - (v.rad - v.orif)) ^ 2 := by nlinarith
    have hx0u : v.rad - xl ≤ u := by linarith
    have hsq : (u - (v.rad - xl)) ^ 2 < (w - (v.rad - xl)) ^ 2 := by nlinarith
    have hnum : (u - (v.rad - xl)) ^ 2 * v.length
        < (w - (v.rad - xl)) ^ 2 * v.length := mul_lt_mul_of_pos_right hsq hlen
    have hdiv := (div_lt_div_iff_of_pos_right hyl).mpr hnum
    linarith [hdiv]

/-- Normal form of the sampled contour: one map over the ten indices. -/
theorem line_eq (v : Valve) : v.line = (List.range 10).map
    (fun (i : ℕ) => (v.rad - (v.rad - v.orif) * ((i : ℚ) / 9),
               v.contour_y (v.rad - (v.rad - v.orif) * ((i : ℚ) / 9)))) := by
  unfold Valve.line Valve.puntos_x
  rw [List.map_map]
  refine List.map_congr_left fun i _ => ?_
  simp only [Function.comp_apply]
  norm_num [Valve.puntos]

/-- The sampled abscissas decrease strictly along the contour whenever
`orif < rad`, staying at or above `orif`; stated on consecutive samples. -/
theorem puntos_x_step (v : Valve) (hro : v.orif < v.rad) (m : ℕ) (hm : m < 9) :
    v.orif ≤ v.rad - (v.rad - v.orif) * ((((m + 1 : ℕ)) : ℚ) / 9) ∧
    v.rad - (v.rad - v.orif) * ((((m + 1 : ℕ)) : ℚ) / 9)
      < v.rad - (v.rad - v.orif) * ((m : ℚ) / 9) := by
  have hvxl : 0 < v.rad - v.orif := by linarith
  have hm8 : (m : ℚ) ≤ 8 := by exact_mod_cast (by omega : m ≤ 8)
  have hm0 : (0 : ℚ) ≤ (m : ℚ) := Nat.cast_nonneg m
  push_cast
  constructor
  · nlinarith [mul_le_of_le_one_right hvxl.le
      (by linarith : ((m : ℚ) + 1) / 9 ≤ 1)]
  · nlinarith [mul_pos hvxl (by norm_num : (0:ℚ) < 1 / 9)]

/-- Every sampled contour point has a nonnegative abscissa when
`0 ≤ orif < rad`. -/
theorem puntos_x_mem_nonneg (v : Valve) (horif : 0 ≤ v.orif) (hro : v.orif < v.rad) :
    ∀ q ∈ v.line, 0 ≤ q.1 := by
  intro q hq
  rw [line_eq] at hq
  simp only [List.mem_map, List.mem_range] at hq
  obtain ⟨i, hi, rfl⟩ := hq
  have hvxl : 0 < v.rad - v.orif := by linarith
  have hi9 : (i : ℚ) ≤ 9 := by exact_mod_cast (by omega : i ≤ 9)
  have hi0 : (0 : ℚ) ≤ (i : ℚ) := Nat.cast_nonneg i
  have hb : (v.rad - v.orif) * ((i : ℚ) / 9) ≤ v.rad - v.orif :=
    mul_le_of_le_one_right hvxl.le (by linarith : (i : ℚ) / 9 ≤ 1)
  simp only []
  linarith

/-- The heights of the sampled contour strictly decrease, for `'line'`
valves and for `'cusp'` valves with trim factor in `[0, 1)`. -/
theorem line_chain_y (v : Valve)
    (hshape : v.shape = Shape.line ∨
      (v.shape = Shape.cusp ∧ 0 ≤ v.trim_factor ∧ v.trim_factor < 1))
    (hro : v.orif < v.rad) (hlen : 0 < v.length) :
    v.line.Chain' (fun a b => b.2 < a.2) := by
  rw [line_eq, List.chain'_map, show (10:ℕ) = Nat.succ 9 from rfl,
    List.chain'_range_succ]
  intro m hm
  obtain ⟨h1, h2⟩ := puntos_x_step v hro m hm
  simp only []
  push_cast at h1 h2 ⊢
  exact contour_y_lt v hshape hro hlen _ _ h1 h2

/-- The abscissas of the sampled contour are non-increasing for
`orif < rad`. -/
theorem line_chain_x (v : Valve) (hro : v.orif < v.rad) :
    v.line.Chain' (fun a b => b.1 ≤ a.1) := by
  rw [line_eq, List.chain'_map, show (10:ℕ) = Nat.succ 9 from rfl,
    List.chain'_range_succ]
  intro m hm
  have h2 := (puntos_x_step v hro m hm).2
  simp only []
  push_cast at h2 ⊢
  linarith

/-- The head of the sampled contour is the base point
`(rad, contour_y rad)`. -/
theorem line_head (v : Valve) : v.line.head? = some (v.rad, v.contour_y v.rad) := by
  rw [line_eq, show (10:ℕ) = Nat.succ 9 from rfl, List.range_succ_eq_map]
  simp

/-- The base point of the contour is at a nonnegative height for `'line'`
valves and for `'cusp'` valves with trim factor in `[0, 1)`. -/
theorem contour_y_rad_nonneg (v : Valve)
    (hshape : v.shape = Shape.line ∨
      (v.shape = Shape.cusp ∧ 0 ≤ v.trim_factor ∧ v.trim_factor < 1))
    (hro : v.orif < v.rad) (hlen : 0 < v.length) :
    0 ≤ v.contour_y v.rad := by
  have hvxl : 0 < v.rad - v.orif := by linarith
  rcases hshape with hl | ⟨hc, hf0, hf1⟩
  · simp [Valve.contour_y, hl]
  · simp only [Valve.contour_y, hc]
    have hF : 0 < 1 - v.trim_factor := by linarith
    set xl := (v.rad - v.orif) / (1 - v.trim_factor) with hxl_def
    have hxl_ge : v.rad - v.orif ≤ xl := by
      rw [hxl_def, le_div_iff hF]
      nlinarith
    have hyl : 0 < xl ^ 2 - (xl - (v.rad - v.orif)) ^ 2 := by nlinarith
    have key : (v.rad - (v.rad - xl)) ^ 2 * v.length
          / (xl ^ 2 - (xl - (v.rad - v.orif)) ^ 2) - v.length
        = v.length * (xl - (v.rad - v.orif)) ^ 2
          / (xl ^ 2 - (xl - (v.rad - v.orif)) ^ 2) := by
      field_simp
      ring
    rw [key]
    positivity

/-- Over the loop-branch domain the interpolation result never exceeds
`rad`, for negative base-referred heights. -/
theorem valve_interp_le_rad (v : Valve)
    (hshape : v.shape = Shape.line ∨
      (v.shape = Shape.cusp ∧ 0 ≤ v.trim_factor ∧ v.trim_factor < 1))
    (horif : 0 ≤ v.orif) (hro : v.orif < v.rad) (hlen : 0 < v.length)
    (y_ : ℚ) (hy_ : y_ < 0) :
    Valve.interp y_ v.line ≤ v.rad := by
  have hx0 := puntos_x_mem_nonneg v horif hro
  have hcy := line_chain_y v hshape hro hlen
  have hcx := line_chain_x v hro
  have hhd := line_head v
  cases hl : v.line with
  | nil =>
      simp only [Valve.interp]
      linarith
  | cons p rest =>
      rw [hl] at hx0 hcy hcx hhd
      simp only [List.head?_cons, Option.some_inj] at hhd
      subst hhd
      exact interp_le_head y_ _ rest hx0 hcy hcx
        (lt_of_lt_of_le hy_ (contour_y_rad_nonneg v hshape hro hlen))

/-- C4 counterexample: the claim bounds no trim factor, but for the cusp
valve `l1=10, length=5, rad=10, orif=5` with `trim_factor = -2`, both
heights `-12 ≤ -11` lie in `[-(l1+length), 0] = [-15, 0]` and yet
`radio(-12) = 36/5 > radio(-11) = 33/5`: the radius increases as the height
decreases (the trimmed contour's first sampled segment rises, so the scan
extrapolates non-monotonically). -/
theorem C4_counterexample :
    (Valve.init 10 10 5 10 5 1 Shape.cusp 2 (-2)).shape = Shape.cusp ∧
    (0 : ℚ) ≤ (Valve.init 10 10 5 10 5 1 Shape.cusp 2 (-2)).orif ∧
    (Valve.init 10 10 5 10 5 1 Shape.cusp 2 (-2)).orif
      < (Valve.init 10 10 5 10 5 1 Shape.cusp 2 (-2)).rad ∧
    -((Valve.init 10 10 5 10 5 1 Shape.cusp 2 (-2)).l1
        + (Valve.init 10 10 5 10 5 1 Shape.cusp 2 (-2)).length) ≤ -12 ∧
    (-12 : ℚ) ≤ -11 ∧ (-11 : ℚ) ≤ 0 ∧
    (Valve.init 10 10 5 10 5 1 Shape.cusp 2 (-2)).radio (-11) = some (33/5) ∧
    (Valve.init 10 10 5 10 5 1 Shape.cusp 2 (-2)).radio (-12) = some (36/5) ∧
    ¬ ((36 : ℚ)/5 ≤ 33/5) := by
  with_unfolding_all decide

/-- C4 amended: for `'line'` valves with `rad > orif ≥ 0` and for `'cusp'`
valves with `rad > orif ≥ 0` and trim factor in `[0, 1)` (the spec's "0 =
no trim" proportional-shrink domain), `radio` is monotonically
non-increasing as the height decreases over `[-(l1+length), 0]`: whenever
`y' ≤ y` in that interval, both radii are defined and
`radio(y') ≤ radio(y)`. -/
theorem C4_amended (v : Valve)
    (hshape : v.shape = Shape.line ∨
      (v.shape = Shape.cusp ∧ 0 ≤ v.trim_factor ∧ v.trim_factor < 1))
    (horif : 0 ≤ v.orif) (hro : v.orif < v.rad)
    (y y' : ℚ) (hy0 : y ≤ 0) (hy'l : -(v.l1 + v.length) ≤ y') (hle : y' ≤ y) :
    ∃ r r' : ℚ, v.radio y = some r ∧ v.radio y' = some r' ∧ r' ≤ r := by
  have hy'0 : y' ≤ 0 := le_trans hle hy0
  have hyl : -(v.l1 + v.length) ≤ y := le_trans hy'l hle
  by_cases hA : -v.l1 ≤ y
  · by_cases hB : -v.l1 ≤ y'
    · refine ⟨v.rad, v.rad, ?_, ?_, le_refl _⟩
      · unfold Valve.radio
        rw [if_neg (not_lt.mpr hy0), if_pos hA]
      · unfold Valve.radio
        rw [if_neg (not_lt.mpr hy'0), if_pos hB]
    · have hy'A : y' < -v.l1 := not_le.mp hB
      have hlen : 0 < v.length := by linarith
      refine ⟨v.rad, Valve.interp (y' + v.l1) v.line, ?_, ?_, ?_⟩
      · unfold Valve.radio
        rw [if_neg (not_lt.mpr hy0), if_pos hA]
      · unfold Valve.radio
        rw [if_neg (not_lt.mpr hy'0), if_neg hB, if_pos hy'l]
      · exact valve_interp_le_rad v hshape horif hro hlen _ (by linarith)
  · have hyA : y < -v.l1 := not_le.mp hA
    have hB : ¬ -v.l1 ≤ y' := not_le.mpr (lt_of_le_of_lt hle hyA)
    have hlen : 0 < v.length := by linarith
    refine ⟨Valve.interp (y + v.l1) v.line, Valve.interp (y' + v.l1) v.line,
      ?_, ?_, ?_⟩
    · unfold Valve.radio
      rw [if_neg (not_lt.mpr hy0), if_neg hA, if_pos hyl]
    · unfold Valve.radio
      rw [if_neg (not_lt.mpr hy'0), if_neg hB, if_pos hy'l]
    · exact interp_mono_list (y + v.l1) (y' + v.l1) v.line
        (puntos_x_mem_nonneg v horif hro) (line_chain_y v hshape hro hlen)
        (line_chain_x v hro) (by linarith)

/-- Witness for C4's amended statement on the fixture valve (cusp, trim 0),
comparing the LVOT height `-10` with the valve tip height `-15`. -/
theorem C4_amended_witness :
    ∃ r r' : ℚ, valveA.radio (-10) = some r ∧ valveA.radio (-15) = some r' ∧ r' ≤ r :=
  C4_amended valveA
    (Or.inr ⟨rfl, by with_unfolding_all decide, by with_unfolding_all decide⟩)
    (by with_unfolding_all decide) (by with_unfolding_all decide) (-10) (-15)
    (by norm_num) (by with_unfolding_all decide) (by norm_num)
